import Mathlib

/-!
# AsteroidsDemo: the per-frame simulation step of `src/Main.cpp`

A shallow embedding of the game loop body of `main` (ship update, asteroid
update loop, bullet update loop), of `collide` and of `processInput`.

Scalars (`float` in the source) are modelled as exact rationals in the
movement and collision code: there every arithmetic operation and comparison
below is the exact one, so rounding, infinities and NaN are outside the model.
The cooldown test of `processInput` compares a difference of timer values with
`0.2f` at a sharp threshold, where rounding decides the outcome; it is modelled
in binary32 arithmetic (`toFloat`).  The library functions that have no
rational counterpart are handled as follows:

* `std::sin (glm::radians θ)` and `std::cos (glm::radians θ)` are parameters
  (`Trig`) of the definitions that call them;
* `glm::length v < s` is evaluated without extracting the root, as
  `0 < s ∧ v.x * v.x + v.y * v.y < s * s`; `lengthLt_iff` proves that, in exact
  arithmetic, this is the same comparison as `√(v.x² + v.y²) < s`.
-/

namespace Asteroids

/-! ## Data model -/

/-- The `glm::vec2` of the source. -/
structure Vec2 where
  x : ℚ
  y : ℚ
deriving DecidableEq

namespace Vec2

/-- Component-wise sum, `operator+` of `glm::vec2`. -/
def add (a b : Vec2) : Vec2 := ⟨a.x + b.x, a.y + b.y⟩

/-- Component-wise difference, `operator-` of `glm::vec2`. -/
def sub (a b : Vec2) : Vec2 := ⟨a.x - b.x, a.y - b.y⟩

/-- Multiplication by a scalar, `operator*` of `glm::vec2` with a `float`. -/
def scale (a : Vec2) (k : ℚ) : Vec2 := ⟨a.x * k, a.y * k⟩

/-- The square of `glm::length`. -/
def lengthSq (a : Vec2) : ℚ := a.x * a.x + a.y * a.y

end Vec2

/-- The `struct Object` of the source (ship and asteroids). -/
structure Object where
  position : Vec2
  velocity : Vec2
  rotation : ℚ := 0
  radius : ℚ := 20
deriving DecidableEq

/-- The `struct Bullet` of the source. -/
structure Bullet where
  position : Vec2
  velocity : Vec2
  life : ℚ := 2
deriving DecidableEq

/-- The constant `WIDTH`. -/
def WIDTH : ℚ := 800

/-- The constant `HEIGHT`. -/
def HEIGHT : ℚ := 600

/-- The composites `std::sin (glm::radians θ)` and `std::cos (glm::radians θ)`,
taken as parameters. -/
structure Trig where
  sinDeg : ℚ → ℚ
  cosDeg : ℚ → ℚ

/-- The global variables of the source together with the function-local
`static float lastShot` of `processInput`. -/
structure World where
  ship : Object
  asteroids : List Object
  bullets : List Bullet
  thrust : ℚ := 0
  turn : ℚ := 0
  lastShot : ℚ := 0
deriving DecidableEq

/-- The keys polled by `processInput` (`true` when `glfwGetKey` returns
`GLFW_PRESS`).  The escape key only sets the close flag of the window, which is
not part of the simulated state. -/
structure Keys where
  keyW : Bool := false
  keyUp : Bool := false
  keyA : Bool := false
  keyLeft : Bool := false
  keyD : Bool := false
  keyRight : Bool := false
  keySpace : Bool := false
deriving DecidableEq

/-! ## `processInput` -/

/-- The forward vector `{ -sin(radians(rotation)), cos(radians(rotation)) }`. -/
def forward (T : Trig) (rotation : ℚ) : Vec2 :=
  ⟨-T.sinDeg rotation, T.cosDeg rotation⟩

/-! ### Binary32 rounding -/

/-- Rounding of a rational to the nearest integer, ties to the even one. -/
def roundEven (q : ℚ) : ℤ :=
  let f := ⌊q⌋
  let r := q - f
  if r < 1 / 2 then f else if r > 1 / 2 then f + 1 else if f % 2 = 0 then f else f + 1

/-- The binary32 exponent of a magnitude `m`: `⌊log₂ m⌋`, and -126 in the
subnormal range. -/
def binadeExp (m : ℚ) : ℤ := max (Int.log 2 m) (-126)

/-- The binary32 value nearest to a magnitude `m ≥ 0` (ties to even): a
multiple of the unit in the last place `2 ^ (binadeExp m - 23)`. -/
def roundMag (m : ℚ) : ℚ :=
  let u : ℚ := 2 ^ (binadeExp m - 23)
  u * roundEven (m / u)

/-- The conversion to `float` and the rounding of every `float` operation
(round to nearest, ties to even, 24-bit significand, subnormals below
`2 ^ (-126)`).  Magnitudes above `FLT_MAX`, which the source turns into
infinities, are outside the model. -/
def toFloat (x : ℚ) : ℚ := if x < 0 then -roundMag (-x) else roundMag x

/-- The largest finite `float`, `(2 ^ 24 - 1) * 2 ^ 104`. -/
def FLT_MAX : ℚ := 340282346638528859811704183484516925440

/-- The fire branch of `processInput` (lines 76-84): `time` is the `double`
returned by `glfwGetTime`, converted to `float` by line 78; line 79 subtracts
two floats and compares the rounded difference with the literal `0.2f`. -/
def fire (T : Trig) (time : ℚ) (w : World) : World :=
  let timeF := toFloat time
  if toFloat (timeF - w.lastShot) > toFloat (1 / 5) then
    { w with
      bullets := w.bullets ++
        [{ position := w.ship.position,
           velocity := ((forward T w.ship.rotation).scale 5).add w.ship.velocity }],
      lastShot := timeF }
  else w

/-- The function `processInput` (lines 60-85). -/
def processInput (T : Trig) (k : Keys) (time : ℚ) (w : World) : World :=
  let thrust : ℚ := if k.keyW || k.keyUp then 5 else 0
  let turn1 : ℚ := if k.keyA || k.keyLeft then 0 + 200 else 0
  let turn2 : ℚ := if k.keyD || k.keyRight then turn1 + (-200) else turn1
  let w1 : World := { w with thrust := thrust, turn := turn2 }
  if k.keySpace then fire T time w1 else w1

/-! ## `collide` -/

/-- The comparison `glm::length v < s`, evaluated on the squares. -/
def lengthLt (v : Vec2) (s : ℚ) : Bool :=
  decide (0 < s ∧ v.lengthSq < s * s)

/-- The function `collide` (lines 88-92). -/
def collide (a b : Object) : Bool :=
  let diff := a.position.sub b.position
  lengthLt diff (a.radius + b.radius)

/-! ## The frame body -/

/-- The wrap of one coordinate: `if (c < 0) c += bound; if (c > bound) c -= bound;`. -/
def wrapCoord (bound c : ℚ) : ℚ :=
  let c1 := if c < 0 then c + bound else c
  if c1 > bound then c1 - bound else c1

/-- The four wrap statements applied to a position. -/
def wrap (p : Vec2) : Vec2 := ⟨wrapCoord WIDTH p.x, wrapCoord HEIGHT p.y⟩

/-- The ship update (lines 152-161). -/
def updateShip (T : Trig) (thrust turn dt : ℚ) (ship : Object) : Object :=
  let rotation := ship.rotation + turn * dt
  let dir := forward T rotation
  let velocity := (ship.velocity.add ((dir.scale thrust).scale dt)).scale (99 / 100)
  { ship with
    rotation := rotation,
    velocity := velocity,
    position := wrap (ship.position.add velocity) }

/-- The movement and wrap of one asteroid (lines 165-169). -/
def moveAsteroid (ast : Object) : Object :=
  { ast with position := wrap (ast.position.add ast.velocity) }

/-- The reset of the ship on a collision (lines 173-174). -/
def resetShip (ship : Object) : Object :=
  { ship with position := ⟨WIDTH / 2, HEIGHT / 2⟩, velocity := ⟨0, 0⟩ }

/-- The asteroid update loop (lines 164-176): returns the ship and the
asteroid list after the loop. -/
def asteroidLoop : Object → List Object → Object × List Object
  | ship, [] => (ship, [])
  | ship, ast :: rest =>
    let ast1 := moveAsteroid ast
    let ship1 := if collide ship ast1 then resetShip ship else ship
    let r := asteroidLoop ship1 rest
    (r.1, ast1 :: r.2)

/-- The temporary object `{ it->position, {0,0}, 0, 2.0f }` of line 194. -/
def bulletObject (p : Vec2) : Object :=
  { position := p, velocity := ⟨0, 0⟩, rotation := 0, radius := 2 }

/-- The inner loop over the asteroids (lines 193-202) for a bullet at `p`:
`some asts` when an asteroid was struck, with `asts` the list after its
erasure, `none` when the loop ran to the end. -/
def scanAsteroids (p : Vec2) : List Object → Option (List Object)
  | [] => none
  | ast :: rest =>
    if collide (bulletObject p) ast then some rest
    else (scanAsteroids p rest).map (fun r => ast :: r)

/-- The movement and the lifetime decrement of a bullet (lines 180-181). -/
def moveBullet (dt : ℚ) (b : Bullet) : Bullet :=
  { b with position := b.position.add b.velocity, life := b.life - dt }

/-- The wrap of a bullet (lines 187-190). -/
def wrapBullet (b : Bullet) : Bullet :=
  { b with position := wrap b.position }

/-- The bullet update loop (lines 179-205).  The vector `bullets` is
`front ++ back` and the iterator `it` stands at the first element of `back`
(`it == bullets.end()` when `back` is empty); the result is the pair of the
bullet vector and the asteroid vector when the loop ends.

* expiry: `it = bullets.erase(it)`, the iterator stays at the next element;
* strike: the asteroid and the bullet are erased, `it` is at the next element,
  and line 203 advances it once more when it is not the end;
* neither: line 203 advances the iterator past the moved, wrapped bullet. -/
def bulletLoop (dt : ℚ) : List Bullet → List Bullet → List Object →
    List Bullet × List Object
  | front, [], asts => (front, asts)
  | front, b :: rest, asts =>
    let b1 := moveBullet dt b
    if b1.life ≤ 0 then bulletLoop dt front rest asts
    else
      let b2 := wrapBullet b1
      match scanAsteroids b2.position asts with
      | some asts1 =>
        match rest with
        | [] => (front, asts1)
        | next :: rest1 => bulletLoop dt (front ++ [next]) rest1 asts1
      | none => bulletLoop dt (front ++ [b2]) rest asts

/-- The update part of the frame body (lines 152-205): ship, then asteroids,
then bullets. -/
def simStep (T : Trig) (dt : ℚ) (w : World) : World :=
  let ship1 := updateShip T w.thrust w.turn dt w.ship
  let r := asteroidLoop ship1 w.asteroids
  let s := bulletLoop dt [] w.bullets r.2
  { w with ship := r.1, asteroids := s.2, bullets := s.1 }

/-! ## Notions used to state the properties -/

/-- A position inside the world rectangle `[0, WIDTH] × [0, HEIGHT]`. -/
def InBounds (p : Vec2) : Prop := 0 ≤ p.x ∧ p.x ≤ WIDTH ∧ 0 ≤ p.y ∧ p.y ≤ HEIGHT

instance : DecidablePred InBounds := fun p => by unfold InBounds; infer_instance

/-- A displacement of at most one world dimension on each axis. -/
def SmallStep (v : Vec2) : Prop := |v.x| ≤ WIDTH ∧ |v.y| ≤ HEIGHT

instance : DecidablePred SmallStep := fun v => by unfold SmallStep; infer_instance

/-- The least difference of two `float` timer values that passes the test
`time - lastShot > 0.2f`: the midpoint between `0.2f = 13421773 / 2 ^ 26` and
the next `float`, which rounds up to the latter. -/
def cooldownThreshold : ℚ := 26843547 / 134217728

/-- The bullets, as they are before the step, on which `bulletLoop` executes
line 180 (`it->position += it->velocity`), in the order of the visits: the
recursion is that of `bulletLoop`, which visits every bullet the iterator
stops at and none that line 203 steps over after a strike. -/
def movedBullets (dt : ℚ) : List Bullet → List Object → List Bullet
  | [], _ => []
  | b :: rest, asts =>
    let b1 := moveBullet dt b
    if b1.life ≤ 0 then b :: movedBullets dt rest asts
    else
      let b2 := wrapBullet b1
      match scanAsteroids b2.position asts with
      | some asts1 =>
        match rest with
        | [] => [b]
        | _ :: rest1 => b :: movedBullets dt rest1 asts1
      | none => b :: movedBullets dt rest asts

/-- The world of the source at program start (lines 50-58), with the given
bullets in flight. -/
def initialWorld (bullets : List Bullet) : World :=
  { ship := { position := ⟨WIDTH / 2, HEIGHT / 2⟩, velocity := ⟨0, 0⟩ },
    asteroids :=
      [{ position := ⟨100, 100⟩, velocity := ⟨1 / 2, 3 / 10⟩, rotation := 0, radius := 30 },
       { position := ⟨700, 500⟩, velocity := ⟨-2 / 5, -3 / 5⟩, rotation := 0, radius := 40 }],
    bullets := bullets }

/-- A `Trig` with the values of sine and cosine at 0 degrees, the only angle
the concrete examples below evaluate it at. -/
def trigAtZero : Trig := ⟨fun _ => 0, fun _ => 1⟩

/-- A bullet that reaches (100, 100) after its movement, inside the first
asteroid of `initialWorld`. -/
def bulletA : Bullet := { position := ⟨100, 95⟩, velocity := ⟨0, 5⟩ }

/-- A bullet inside the second asteroid of `initialWorld`. -/
def bulletB : Bullet := { position := ⟨700, 495⟩, velocity := ⟨0, 5⟩ }

/-- A bullet far from the asteroids with 0.01 s left to live. -/
def bulletC : Bullet := { position := ⟨400, 100⟩, velocity := ⟨0, 5⟩, life := 1 / 100 }

/-- A resting asteroid centred at (120, 100). -/
def asteroidFar : Object :=
  { position := ⟨120, 100⟩, velocity := ⟨0, 0⟩, rotation := 0, radius := 30 }

/-- A resting asteroid centred at (100, 100). -/
def asteroidNear : Object :=
  { position := ⟨100, 100⟩, velocity := ⟨0, 0⟩, rotation := 0, radius := 30 }

/-- A resting asteroid centred at (390, 300), over the start position of the ship. -/
def asteroidMid : Object :=
  { position := ⟨390, 300⟩, velocity := ⟨0, 0⟩, rotation := 0, radius := 30 }

/-- The ship of the source at program start (line 50). -/
def shipAtCentre : Object := { position := ⟨WIDTH / 2, HEIGHT / 2⟩, velocity := ⟨0, 0⟩ }

/-- The keys with only the fire key pressed. -/
def fireKeys : Keys := { keySpace := true }

/-- A world with the ship at its start position, the resting asteroids
`asteroidFar` and `asteroidNear`, in that order, and `bulletA` in flight. -/
def twoAsteroidWorld : World :=
  { ship := shipAtCentre, asteroids := [asteroidFar, asteroidNear], bullets := [bulletA] }

/-! ## Lemmas on the binary32 rounding -/

theorem roundEven_floor_le (q : ℚ) : ⌊q⌋ ≤ roundEven q := by
  unfold roundEven
  simp only
  split_ifs <;> omega

theorem roundEven_le_floor_succ (q : ℚ) : roundEven q ≤ ⌊q⌋ + 1 := by
  unfold roundEven
  simp only
  split_ifs <;> omega

theorem roundEven_intCast (n : ℤ) : roundEven (n : ℚ) = n := by
  unfold roundEven
  simp

theorem roundEven_mono {q q' : ℚ} (h : q ≤ q') : roundEven q ≤ roundEven q' := by
  have hfl : ⌊q⌋ ≤ ⌊q'⌋ := Int.floor_mono h
  rcases lt_or_eq_of_le hfl with hlt | heq
  · calc roundEven q ≤ ⌊q⌋ + 1 := roundEven_le_floor_succ q
      _ ≤ ⌊q'⌋ := hlt
      _ ≤ roundEven q' := roundEven_floor_le q'
  · have hr : q - ⌊q⌋ ≤ q' - ⌊q'⌋ := by rw [heq]; linarith
    unfold roundEven
    simp only
    rw [← heq]
    have hr' : q - (⌊q⌋ : ℚ) ≤ q' - (⌊q⌋ : ℚ) := by linarith
    split_ifs <;> first | omega | (exfalso; linarith)

theorem roundEven_le_of_lt_half {q : ℚ} {n : ℤ} (h : q < n + 1 / 2) : roundEven q ≤ n := by
  have hfl : ⌊q⌋ ≤ n := by
    have : ⌊q⌋ < n + 1 := by
      rw [Int.floor_lt]; push_cast; linarith
    omega
  rcases lt_or_eq_of_le hfl with hlt | heq
  · have := roundEven_le_floor_succ q
    omega
  · unfold roundEven
    simp only
    have hr : q - (⌊q⌋ : ℚ) < 1 / 2 := by rw [heq]; linarith
    rw [if_pos hr]
    exact hfl

theorem binadeExp_lt {m : ℚ} (_hm : 0 < m) : m < 2 ^ (binadeExp m + 1) := by
  have h1 : m < ((2 : ℕ) : ℚ) ^ (Int.log 2 m + 1) := Int.lt_zpow_succ_log_self (by norm_num) m
  have h2 : ((2 : ℕ) : ℚ) ^ (Int.log 2 m + 1) ≤ ((2 : ℕ) : ℚ) ^ (binadeExp m + 1) :=
    zpow_le_zpow_right₀ (by norm_num) (by unfold binadeExp; omega)
  exact_mod_cast lt_of_lt_of_le h1 h2

theorem binadeExp_le {m : ℚ} (hm : 0 < m) (hn : -126 < binadeExp m) :
    2 ^ binadeExp m ≤ m := by
  have he : binadeExp m = Int.log 2 m := by unfold binadeExp at hn ⊢; omega
  rw [he]
  exact_mod_cast Int.zpow_log_le_self (R := ℚ) (b := 2) (by norm_num) hm

theorem binadeExp_mono {x y : ℚ} (hx : 0 < x) (h : x ≤ y) : binadeExp x ≤ binadeExp y := by
  unfold binadeExp
  exact max_le_max (Int.log_mono_right hx h) le_rfl

theorem binadeExp_eq {m : ℚ} {e : ℤ} (hlo : 2 ^ e ≤ m) (hhi : m < 2 ^ (e + 1))
    (he : -126 ≤ e) : binadeExp m = e := by
  have hm : 0 < m := lt_of_lt_of_le (by positivity) hlo
  have h1 : e ≤ Int.log 2 m :=
    (Int.zpow_le_iff_le_log (by norm_num) hm).mp (by exact_mod_cast hlo)
  have h2 : Int.log 2 m < e + 1 :=
    (Int.lt_zpow_iff_log_lt (by norm_num) hm).mp (by exact_mod_cast hhi)
  unfold binadeExp
  omega

theorem ulp_pos (m : ℚ) : (0 : ℚ) < 2 ^ (binadeExp m - 23) := by positivity

theorem roundMag_nonneg {m : ℚ} (hm : 0 ≤ m) : 0 ≤ roundMag m := by
  unfold roundMag
  simp only
  have h0 : (0 : ℤ) ≤ roundEven (m / 2 ^ (binadeExp m - 23)) := by
    have := roundEven_mono (div_nonneg hm (le_of_lt (ulp_pos m)))
    rwa [show ((0 : ℚ)) = ((0 : ℤ) : ℚ) by simp, roundEven_intCast] at this
  exact mul_nonneg (le_of_lt (ulp_pos m)) (by exact_mod_cast h0)

theorem ulp_mul_top (e : ℤ) : (2 : ℚ) ^ (e - 23) * 16777216 = 2 ^ (e + 1) := by
  rw [show (16777216 : ℚ) = 2 ^ (24 : ℤ) by norm_num, ← zpow_add₀ (by norm_num)]
  congr 1
  ring

theorem ulp_mul_bot (e : ℤ) : (2 : ℚ) ^ (e - 23) * 8388608 = 2 ^ e := by
  rw [show (8388608 : ℚ) = 2 ^ (23 : ℤ) by norm_num, ← zpow_add₀ (by norm_num)]
  congr 1
  ring

theorem roundMag_le_top {m : ℚ} (hm : 0 < m) : roundMag m ≤ 2 ^ (binadeExp m + 1) := by
  unfold roundMag
  simp only
  have hu := ulp_pos m
  have hq : m / 2 ^ (binadeExp m - 23) ≤ ((16777216 : ℤ) : ℚ) := by
    rw [div_le_iff₀ hu]
    push_cast
    rw [mul_comm, ulp_mul_top]
    exact le_of_lt (binadeExp_lt hm)
  have hr := roundEven_mono hq
  rw [roundEven_intCast] at hr
  have hr' : ((roundEven (m / 2 ^ (binadeExp m - 23)) : ℤ) : ℚ) ≤ 16777216 := by
    exact_mod_cast hr
  calc (2 : ℚ) ^ (binadeExp m - 23) * (roundEven (m / 2 ^ (binadeExp m - 23)) : ℚ)
      ≤ 2 ^ (binadeExp m - 23) * 16777216 :=
        mul_le_mul_of_nonneg_left hr' (le_of_lt hu)
    _ = 2 ^ (binadeExp m + 1) := ulp_mul_top _

theorem roundMag_ge_bot {m : ℚ} (hm : 0 < m) (hn : -126 < binadeExp m) :
    2 ^ binadeExp m ≤ roundMag m := by
  unfold roundMag
  simp only
  have hu := ulp_pos m
  have hq : ((8388608 : ℤ) : ℚ) ≤ m / 2 ^ (binadeExp m - 23) := by
    rw [le_div_iff₀ hu]
    push_cast
    rw [mul_comm, ulp_mul_bot]
    exact binadeExp_le hm hn
  have hr := roundEven_mono hq
  rw [roundEven_intCast] at hr
  have hr' : (8388608 : ℚ) ≤ ((roundEven (m / 2 ^ (binadeExp m - 23)) : ℤ) : ℚ) := by
    exact_mod_cast hr
  calc (2 : ℚ) ^ binadeExp m = 2 ^ (binadeExp m - 23) * 8388608 := (ulp_mul_bot _).symm
    _ ≤ 2 ^ (binadeExp m - 23) * (roundEven (m / 2 ^ (binadeExp m - 23)) : ℚ) :=
        mul_le_mul_of_nonneg_left hr' (le_of_lt hu)

theorem roundMag_zero : roundMag 0 = 0 := by
  unfold roundMag
  simp only [zero_div]
  rw [show ((0 : ℚ)) = ((0 : ℤ) : ℚ) by simp, roundEven_intCast]
  simp

theorem roundMag_mono {x y : ℚ} (hx : 0 ≤ x) (h : x ≤ y) : roundMag x ≤ roundMag y := by
  rcases eq_or_lt_of_le hx with rfl | hxpos
  · rw [roundMag_zero]; exact roundMag_nonneg h
  · have hypos : 0 < y := lt_of_lt_of_le hxpos h
    rcases lt_or_eq_of_le (binadeExp_mono hxpos h) with hlt | heq
    · have hn : -126 < binadeExp y := by
        have : -126 ≤ binadeExp x := by unfold binadeExp; exact le_max_right _ _
        omega
      calc roundMag x ≤ 2 ^ (binadeExp x + 1) := roundMag_le_top hxpos
        _ ≤ 2 ^ binadeExp y := zpow_le_zpow_right₀ (by norm_num) (by omega)
        _ ≤ roundMag y := roundMag_ge_bot hypos hn
    · unfold roundMag
      simp only
      rw [heq]
      have hu := ulp_pos y
      have hq : x / 2 ^ (binadeExp y - 23) ≤ y / 2 ^ (binadeExp y - 23) :=
        div_le_div_of_nonneg_right h (le_of_lt hu)
      have hr : ((roundEven (x / 2 ^ (binadeExp y - 23)) : ℤ) : ℚ) ≤
          ((roundEven (y / 2 ^ (binadeExp y - 23)) : ℤ) : ℚ) := by
        exact_mod_cast roundEven_mono hq
      exact mul_le_mul_of_nonneg_left hr (le_of_lt hu)

theorem toFloat_mono {x y : ℚ} (h : x ≤ y) : toFloat x ≤ toFloat y := by
  unfold toFloat
  by_cases hx : x < 0
  · by_cases hy : y < 0
    · rw [if_pos hx, if_pos hy]
      exact neg_le_neg (roundMag_mono (by linarith) (by linarith))
    · rw [if_pos hx, if_neg hy]
      have h1 : 0 ≤ roundMag (-x) := roundMag_nonneg (by linarith)
      have h2 : 0 ≤ roundMag y := roundMag_nonneg (not_lt.mp hy)
      linarith
  · have hy : ¬ y < 0 := by
      intro hy; exact hx (lt_of_le_of_lt h hy)
    rw [if_neg hx, if_neg hy]
    exact roundMag_mono (not_lt.mp hx) h

theorem toFloat_eq {x : ℚ} {e : ℤ} (hlo : 2 ^ e ≤ x) (hhi : x < 2 ^ (e + 1))
    (he : -126 ≤ e) :
    toFloat x = 2 ^ (e - 23) * (roundEven (x / 2 ^ (e - 23)) : ℚ) := by
  have hx : 0 < x := lt_of_lt_of_le (by positivity) hlo
  unfold toFloat roundMag
  rw [if_neg (not_lt.mpr (le_of_lt hx))]
  simp only
  rw [binadeExp_eq hlo hhi he]

theorem toFloat_fifth : toFloat (1 / 5) = 13421773 / 67108864 := by
  rw [toFloat_eq (e := -3) (by norm_num) (by norm_num) (by norm_num)]
  norm_num [roundEven]

theorem toFloat_eighth : toFloat (1 / 8) = 1 / 8 := by
  rw [toFloat_eq (e := -3) (by norm_num) (by norm_num) (by norm_num)]
  norm_num [roundEven]

theorem toFloat_threshold : toFloat (26843547 / 134217728) = 6710887 / 33554432 := by
  rw [toFloat_eq (e := -3) (by norm_num) (by norm_num) (by norm_num)]
  norm_num [roundEven]

theorem toFloat_gt_cooldown_iff (d : ℚ) :
    toFloat d > toFloat (1 / 5) ↔ cooldownThreshold ≤ d := by
  rw [toFloat_fifth]
  unfold cooldownThreshold
  constructor
  · intro h
    by_contra hd
    rw [not_le] at hd
    have hle : toFloat d ≤ 13421773 / 67108864 := by
      by_cases h8 : d < 1 / 8
      · have := toFloat_mono (le_of_lt h8)
        rw [toFloat_eighth] at this
        linarith
      · rw [not_lt] at h8
        rw [toFloat_eq (e := -3) (by norm_num; linarith) (by norm_num; linarith) (by norm_num)]
        have hq : d / 2 ^ ((-3 : ℤ) - 23) < ((13421773 : ℤ) : ℚ) + 1 / 2 := by
          rw [div_lt_iff₀ (by positivity)]
          norm_num
          linarith
        have hr : ((roundEven (d / 2 ^ ((-3 : ℤ) - 23)) : ℤ) : ℚ) ≤ 13421773 := by
          exact_mod_cast roundEven_le_of_lt_half hq
        calc (2 : ℚ) ^ ((-3 : ℤ) - 23) * (roundEven (d / 2 ^ ((-3 : ℤ) - 23)) : ℚ)
            ≤ 2 ^ ((-3 : ℤ) - 23) * 13421773 :=
              mul_le_mul_of_nonneg_left hr (by positivity)
          _ = 13421773 / 67108864 := by norm_num
    linarith
  · intro h
    have := toFloat_mono h
    rw [toFloat_threshold] at this
    have hc : (13421773 / 67108864 : ℚ) < 6710887 / 33554432 := by norm_num
    exact lt_of_lt_of_le hc this

/-! ## Lemmas on `collide` and the wrap -/

theorem lengthLt_iff (v : Vec2) (s : ℚ) :
    lengthLt v s = true ↔ Real.sqrt ((v.x : ℝ) ^ 2 + (v.y : ℝ) ^ 2) < (s : ℝ) := by
  unfold lengthLt Vec2.lengthSq
  rw [decide_eq_true_iff]
  constructor
  · rintro ⟨hs, hlt⟩
    have hs' : (0 : ℝ) < (s : ℝ) := by exact_mod_cast hs
    rw [Real.sqrt_lt' hs']
    have : ((v.x * v.x + v.y * v.y : ℚ) : ℝ) < ((s * s : ℚ) : ℝ) := by exact_mod_cast hlt
    push_cast at this
    nlinarith [this]
  · intro h
    have hs' : (0 : ℝ) < (s : ℝ) := lt_of_le_of_lt (Real.sqrt_nonneg _) h
    rw [Real.sqrt_lt' hs'] at h
    refine ⟨by exact_mod_cast hs', ?_⟩
    have : ((v.x * v.x + v.y * v.y : ℚ) : ℝ) < ((s * s : ℚ) : ℝ) := by
      push_cast
      nlinarith [h]
    exact_mod_cast this

theorem collide_iff_sqrt (a b : Object) :
    collide a b = true ↔
      Real.sqrt (((a.position.x : ℝ) - b.position.x) ^ 2 +
        ((a.position.y : ℝ) - b.position.y) ^ 2) < (a.radius : ℝ) + b.radius := by
  unfold collide
  simp only [lengthLt_iff, Vec2.sub]
  push_cast
  rfl

theorem collide_same_centre (a b : Object) (hpos : a.position = b.position)
    (hrad : 0 < a.radius + b.radius) : collide a b = true := by
  unfold collide lengthLt Vec2.lengthSq Vec2.sub
  rw [decide_eq_true_iff, hpos]
  refine ⟨hrad, ?_⟩
  have : 0 < (a.radius + b.radius) * (a.radius + b.radius) := mul_pos hrad hrad
  simpa using this

theorem wrapCoord_mem {bound c : ℚ} (hlo : -bound ≤ c) (hhi : c ≤ 2 * bound) :
    0 ≤ wrapCoord bound c ∧ wrapCoord bound c ≤ bound := by
  unfold wrapCoord
  by_cases h0 : c < 0
  · have h1 : ¬ (c + bound > bound) := by linarith
    simp only [h0, if_true, h1, if_false]
    constructor <;> linarith
  · simp only [h0, if_false]
    by_cases h2 : c > bound
    · simp only [h2, if_true]
      constructor <;> linarith
    · simp only [h2, if_false]
      constructor <;> linarith

theorem wrapCoord_of_mem {bound c : ℚ} (hlo : 0 ≤ c) (hhi : c ≤ bound) :
    wrapCoord bound c = c := by
  unfold wrapCoord
  have h0 : ¬ c < 0 := not_lt.mpr hlo
  have h1 : ¬ c > bound := not_lt.mpr hhi
  simp only [h0, if_false, h1]

theorem wrap_add_inBounds {p v : Vec2} (hp : InBounds p) (hv : SmallStep v) :
    InBounds (wrap (p.add v)) := by
  obtain ⟨hx0, hx1, hy0, hy1⟩ := hp
  obtain ⟨hvx, hvy⟩ := hv
  rw [abs_le] at hvx hvy
  have hx : 0 ≤ wrapCoord WIDTH (p.x + v.x) ∧ wrapCoord WIDTH (p.x + v.x) ≤ WIDTH :=
    wrapCoord_mem (by linarith) (by linarith)
  have hy : 0 ≤ wrapCoord HEIGHT (p.y + v.y) ∧ wrapCoord HEIGHT (p.y + v.y) ≤ HEIGHT :=
    wrapCoord_mem (by linarith) (by linarith)
  exact ⟨hx.1, hx.2, hy.1, hy.2⟩

theorem centre_inBounds : InBounds ⟨WIDTH / 2, HEIGHT / 2⟩ := by
  unfold InBounds WIDTH HEIGHT
  norm_num

/-! ## Lemmas on the scan of the asteroids -/

theorem scanAsteroids_first (p : Vec2) (pre : List Object) (a : Object) (post : List Object)
    (hpre : ∀ x ∈ pre, collide (bulletObject p) x = false)
    (ha : collide (bulletObject p) a = true) :
    scanAsteroids p (pre ++ a :: post) = some (pre ++ post) := by
  induction pre with
  | nil => simp [scanAsteroids, ha]
  | cons x xs ih =>
    have hx : collide (bulletObject p) x = false := hpre x (List.mem_cons_self _ _)
    have := ih (fun y hy => hpre y (List.mem_cons_of_mem _ hy))
    simp [scanAsteroids, hx, this]

theorem scanAsteroids_none (p : Vec2) (asts : List Object)
    (h : ∀ x ∈ asts, collide (bulletObject p) x = false) :
    scanAsteroids p asts = none := by
  induction asts with
  | nil => rfl
  | cons x xs ih =>
    have hx : collide (bulletObject p) x = false := h x (List.mem_cons_self _ _)
    have := ih (fun y hy => h y (List.mem_cons_of_mem _ hy))
    simp [scanAsteroids, hx, this]

theorem scanAsteroids_some (p : Vec2) (asts r : List Object)
    (h : scanAsteroids p asts = some r) :
    ∃ pre a post, asts = pre ++ a :: post ∧ r = pre ++ post ∧
      (∀ x ∈ pre, collide (bulletObject p) x = false) ∧
      collide (bulletObject p) a = true := by
  induction asts generalizing r with
  | nil => simp [scanAsteroids] at h
  | cons x xs ih =>
    unfold scanAsteroids at h
    by_cases hx : collide (bulletObject p) x = true
    · simp only [hx, if_true, Option.some.injEq] at h
      exact ⟨[], x, xs, by simp, by simp [h], by simp, hx⟩
    · rw [if_neg hx] at h
      cases hs : scanAsteroids p xs with
      | none => rw [hs] at h; simp at h
      | some r' =>
        rw [hs] at h
        simp only [Option.map_some', Option.some.injEq] at h
        obtain ⟨pre, a, post, h1, h2, h3, h4⟩ := ih r' hs
        refine ⟨x :: pre, a, post, by simp [h1], by simp [← h, h2], ?_, h4⟩
        intro y hy
        rcases List.mem_cons.mp hy with rfl | hy
        · simpa using hx
        · exact h3 y hy

theorem scanAsteroids_none_iff (p : Vec2) (asts : List Object) :
    scanAsteroids p asts = none ↔ ∀ x ∈ asts, collide (bulletObject p) x = false := by
  constructor
  · intro h x hx
    induction asts with
    | nil => simp at hx
    | cons y ys ih =>
      unfold scanAsteroids at h
      by_cases hy : collide (bulletObject p) y = true
      · simp [hy] at h
      · rw [if_neg hy] at h
        have hys : scanAsteroids p ys = none := by
          cases hs : scanAsteroids p ys with
          | none => rfl
          | some r => rw [hs] at h; simp at h
        rcases List.mem_cons.mp hx with rfl | hx
        · simpa using hy
        · exact ih hys hx
  · exact scanAsteroids_none p asts

theorem scanAsteroids_sublist (p : Vec2) (asts r : List Object)
    (h : scanAsteroids p asts = some r) : r.Sublist asts ∧ r.length + 1 = asts.length := by
  obtain ⟨pre, a, post, rfl, rfl, -, -⟩ := scanAsteroids_some p asts r h
  refine ⟨?_, by simp; omega⟩
  exact List.Sublist.append (List.Sublist.refl pre) (List.sublist_cons_self a post)

/-! ## Lemmas on the asteroid update loop -/

theorem resetShip_idem (s : Object) : resetShip (resetShip s) = resetShip s := rfl

theorem asteroidLoop_snd (s : Object) (asts : List Object) :
    (asteroidLoop s asts).2 = asts.map moveAsteroid := by
  induction asts generalizing s with
  | nil => rfl
  | cons a rest ih => simp only [asteroidLoop, List.map_cons, ih]

theorem asteroidLoop_fst_resetShip (s : Object) (asts : List Object) :
    (asteroidLoop (resetShip s) asts).1 = resetShip s := by
  induction asts with
  | nil => rfl
  | cons a rest ih =>
    simp only [asteroidLoop, resetShip_idem, ite_self]
    exact ih

theorem asteroidLoop_fst_of_collide (s : Object) (asts : List Object)
    (h : ∃ a ∈ asts, collide s (moveAsteroid a) = true) :
    (asteroidLoop s asts).1 = resetShip s := by
  induction asts with
  | nil => simp at h
  | cons a rest ih =>
    simp only [asteroidLoop]
    by_cases hc : collide s (moveAsteroid a) = true
    · rw [if_pos hc]
      exact asteroidLoop_fst_resetShip s rest
    · rw [if_neg hc]
      obtain ⟨x, hx, hcx⟩ := h
      rcases List.mem_cons.mp hx with rfl | hx
      · exact absurd hcx hc
      · exact ih ⟨x, hx, hcx⟩

theorem asteroidLoop_fst_cases (s : Object) (asts : List Object) :
    (asteroidLoop s asts).1 = s ∨ (asteroidLoop s asts).1 = resetShip s := by
  induction asts with
  | nil => exact Or.inl rfl
  | cons a rest ih =>
    simp only [asteroidLoop]
    by_cases hc : collide s (moveAsteroid a) = true
    · rw [if_pos hc]
      exact Or.inr (asteroidLoop_fst_resetShip s rest)
    · rw [if_neg hc]
      exact ih

/-! ## Lemmas on the bullet update loop -/

theorem bulletLoop_expired (dt : ℚ) (front : List Bullet) (b : Bullet) (rest : List Bullet)
    (asts : List Object) (hexp : (moveBullet dt b).life ≤ 0) :
    bulletLoop dt front (b :: rest) asts = bulletLoop dt front rest asts := by
  rw [bulletLoop]
  simp only [hexp, if_true]

theorem bulletLoop_strike_last (dt : ℚ) (front : List Bullet) (b : Bullet)
    (asts asts1 : List Object) (hlive : ¬ (moveBullet dt b).life ≤ 0)
    (hscan : scanAsteroids (wrapBullet (moveBullet dt b)).position asts = some asts1) :
    bulletLoop dt front [b] asts = (front, asts1) := by
  rw [bulletLoop]
  simp only [hlive, if_false, hscan]

theorem bulletLoop_strike_next (dt : ℚ) (front : List Bullet) (b next : Bullet)
    (rest : List Bullet) (asts asts1 : List Object) (hlive : ¬ (moveBullet dt b).life ≤ 0)
    (hscan : scanAsteroids (wrapBullet (moveBullet dt b)).position asts = some asts1) :
    bulletLoop dt front (b :: next :: rest) asts = bulletLoop dt (front ++ [next]) rest asts1 := by
  rw [bulletLoop]
  simp only [hlive, if_false, hscan]

theorem bulletLoop_miss (dt : ℚ) (front : List Bullet) (b : Bullet) (rest : List Bullet)
    (asts : List Object) (hlive : ¬ (moveBullet dt b).life ≤ 0)
    (hscan : scanAsteroids (wrapBullet (moveBullet dt b)).position asts = none) :
    bulletLoop dt front (b :: rest) asts =
      bulletLoop dt (front ++ [wrapBullet (moveBullet dt b)]) rest asts := by
  rw [bulletLoop]
  simp only [hlive, if_false, hscan]

theorem movedBullets_expired (dt : ℚ) (b : Bullet) (rest : List Bullet)
    (asts : List Object) (hexp : (moveBullet dt b).life ≤ 0) :
    movedBullets dt (b :: rest) asts = b :: movedBullets dt rest asts := by
  rw [movedBullets]
  simp only [hexp, if_true]

theorem movedBullets_strike_last (dt : ℚ) (b : Bullet)
    (asts asts1 : List Object) (hlive : ¬ (moveBullet dt b).life ≤ 0)
    (hscan : scanAsteroids (wrapBullet (moveBullet dt b)).position asts = some asts1) :
    movedBullets dt [b] asts = [b] := by
  rw [movedBullets]
  simp only [hlive, if_false, hscan]

theorem movedBullets_strike_next (dt : ℚ) (b next : Bullet)
    (rest : List Bullet) (asts asts1 : List Object) (hlive : ¬ (moveBullet dt b).life ≤ 0)
    (hscan : scanAsteroids (wrapBullet (moveBullet dt b)).position asts = some asts1) :
    movedBullets dt (b :: next :: rest) asts = b :: movedBullets dt rest asts1 := by
  rw [movedBullets]
  simp only [hlive, if_false, hscan]

theorem movedBullets_miss (dt : ℚ) (b : Bullet) (rest : List Bullet)
    (asts : List Object) (hlive : ¬ (moveBullet dt b).life ≤ 0)
    (hscan : scanAsteroids (wrapBullet (moveBullet dt b)).position asts = none) :
    movedBullets dt (b :: rest) asts = b :: movedBullets dt rest asts := by
  rw [movedBullets]
  simp only [hlive, if_false, hscan]

theorem bulletLoop_keeps_front (dt : ℚ) (front back : List Bullet) (asts : List Object) :
    front <+: (bulletLoop dt front back asts).1 := by
  induction front, back, asts using bulletLoop.induct dt with
  | case1 front asts => simp [bulletLoop]
  | case2 front b rest asts b1 hexp ih =>
    rw [bulletLoop_expired dt front b rest asts hexp]; exact ih
  | case3 front b asts b1 hlive b2 asts1 hscan =>
    rw [bulletLoop_strike_last dt front b asts asts1 hlive hscan]
  | case4 front b asts b1 hlive b2 asts1 hscan next rest1 ih =>
    rw [bulletLoop_strike_next dt front b next rest1 asts asts1 hlive hscan]
    exact (List.prefix_append front [next]).trans ih
  | case5 front b rest asts b1 hlive b2 hscan ih =>
    rw [bulletLoop_miss dt front b rest asts hlive hscan]
    exact (List.prefix_append front [b2]).trans ih

theorem bulletLoop_asteroids_sublist (dt : ℚ) (front back : List Bullet) (asts : List Object) :
    (bulletLoop dt front back asts).2.Sublist asts := by
  induction front, back, asts using bulletLoop.induct dt with
  | case1 front asts => simp [bulletLoop]
  | case2 front b rest asts b1 hexp ih =>
    rw [bulletLoop_expired dt front b rest asts hexp]; exact ih
  | case3 front b asts b1 hlive b2 asts1 hscan =>
    rw [bulletLoop_strike_last dt front b asts asts1 hlive hscan]
    exact (scanAsteroids_sublist _ asts asts1 hscan).1
  | case4 front b asts b1 hlive b2 asts1 hscan next rest1 ih =>
    rw [bulletLoop_strike_next dt front b next rest1 asts asts1 hlive hscan]
    exact ih.trans (scanAsteroids_sublist _ asts asts1 hscan).1
  | case5 front b rest asts b1 hlive b2 hscan ih =>
    rw [bulletLoop_miss dt front b rest asts hlive hscan]
    exact ih

theorem bulletLoop_inBounds (dt : ℚ) (front back : List Bullet) (asts : List Object)
    (hfront : ∀ b ∈ front, InBounds b.position)
    (hback : ∀ b ∈ back, InBounds b.position)
    (hstep : ∀ b ∈ movedBullets dt back asts, SmallStep b.velocity) :
    ∀ b ∈ (bulletLoop dt front back asts).1, InBounds b.position := by
  induction front, back, asts using bulletLoop.induct dt with
  | case1 front asts => simpa [bulletLoop] using hfront
  | case2 front b rest asts b1 hexp ih =>
    rw [bulletLoop_expired dt front b rest asts hexp]
    rw [movedBullets_expired dt b rest asts hexp] at hstep
    exact ih hfront (fun x hx => hback x (List.mem_cons_of_mem _ hx))
      (fun x hx => hstep x (List.mem_cons_of_mem _ hx))
  | case3 front b asts b1 hlive b2 asts1 hscan =>
    rw [bulletLoop_strike_last dt front b asts asts1 hlive hscan]
    exact hfront
  | case4 front b asts b1 hlive b2 asts1 hscan next rest1 ih =>
    rw [bulletLoop_strike_next dt front b next rest1 asts asts1 hlive hscan]
    rw [movedBullets_strike_next dt b next rest1 asts asts1 hlive hscan] at hstep
    refine ih ?_ (fun x hx => hback x (by simp [hx]))
      (fun x hx => hstep x (List.mem_cons_of_mem _ hx))
    intro x hx
    rcases List.mem_append.mp hx with hx | hx
    · exact hfront x hx
    · have : x = next := by simpa using hx
      exact this ▸ hback next (by simp)
  | case5 front b rest asts b1 hlive b2 hscan ih =>
    rw [bulletLoop_miss dt front b rest asts hlive hscan]
    rw [movedBullets_miss dt b rest asts hlive hscan] at hstep
    refine ih ?_ (fun x hx => hback x (List.mem_cons_of_mem _ hx))
      (fun x hx => hstep x (List.mem_cons_of_mem _ hx))
    intro x hx
    rcases List.mem_append.mp hx with hx | hx
    · exact hfront x hx
    · have hx2 : x = wrapBullet (moveBullet dt b) := by simpa using hx
      rw [hx2]
      exact wrap_add_inBounds (hback b (List.mem_cons_self _ _))
        (hstep b (List.mem_cons_self _ _))

theorem movedBullets_sublist (dt : ℚ) (back : List Bullet) (asts : List Object) :
    (movedBullets dt back asts).Sublist back := by
  induction back, asts using movedBullets.induct dt with
  | case1 asts => simp [movedBullets]
  | case2 b rest asts b1 hexp ih =>
    rw [movedBullets_expired dt b rest asts hexp]
    exact ih.cons₂ b
  | case3 b asts b1 hlive b2 asts1 hscan =>
    rw [movedBullets_strike_last dt b asts asts1 hlive hscan]
  | case4 b asts b1 hlive b2 asts1 hscan next rest1 ih =>
    rw [movedBullets_strike_next dt b next rest1 asts asts1 hlive hscan]
    exact (ih.cons next).cons₂ b
  | case5 b rest asts b1 hlive b2 hscan ih =>
    rw [movedBullets_miss dt b rest asts hlive hscan]
    exact ih.cons₂ b

theorem bulletLoop_tail (dt : ℚ) (front back : List Bullet) (asts : List Object) :
    ∃ tail, (bulletLoop dt front back asts).1 = front ++ tail ∧
      tail.length ≤ back.length ∧
      ∀ x ∈ tail, x ∈ back ∨ ∃ r ∈ back, x = wrapBullet (moveBullet dt r) := by
  induction front, back, asts using bulletLoop.induct dt with
  | case1 front asts => exact ⟨[], by simp [bulletLoop], by simp, by simp⟩
  | case2 front b rest asts b1 hexp ih =>
    rw [bulletLoop_expired dt front b rest asts hexp]
    obtain ⟨tail, h1, h2, h3⟩ := ih
    refine ⟨tail, h1, by simp; omega, ?_⟩
    intro x hx
    rcases h3 x hx with h | ⟨r, hr, rfl⟩
    · exact Or.inl (List.mem_cons_of_mem _ h)
    · exact Or.inr ⟨r, List.mem_cons_of_mem _ hr, rfl⟩
  | case3 front b asts b1 hlive b2 asts1 hscan =>
    rw [bulletLoop_strike_last dt front b asts asts1 hlive hscan]
    exact ⟨[], by simp, by simp, by simp⟩
  | case4 front b asts b1 hlive b2 asts1 hscan next rest1 ih =>
    rw [bulletLoop_strike_next dt front b next rest1 asts asts1 hlive hscan]
    obtain ⟨tail, h1, h2, h3⟩ := ih
    refine ⟨next :: tail, by simp [h1], by simp; omega, ?_⟩
    intro x hx
    rcases List.mem_cons.mp hx with rfl | hx
    · exact Or.inl (by simp)
    · rcases h3 x hx with h | ⟨r, hr, rfl⟩
      · exact Or.inl (by simp [h])
      · exact Or.inr ⟨r, by simp [hr], rfl⟩
  | case5 front b rest asts b1 hlive b2 hscan ih =>
    rw [bulletLoop_miss dt front b rest asts hlive hscan]
    obtain ⟨tail, h1, h2, h3⟩ := ih
    refine ⟨wrapBullet (moveBullet dt b) :: tail, by simp [h1], by simp; omega, ?_⟩
    intro x hx
    rcases List.mem_cons.mp hx with rfl | hx
    · exact Or.inr ⟨b, by simp, rfl⟩
    · rcases h3 x hx with h | ⟨r, hr, rfl⟩
      · exact Or.inl (by simp [h])
      · exact Or.inr ⟨r, by simp [hr], rfl⟩

/-! ## Lemmas on `processInput` -/

theorem processInput_fire (T : Trig) (k : Keys) (t : ℚ) (w : World)
    (hk : k.keySpace = true) :
    (cooldownThreshold ≤ toFloat t - w.lastShot →
      (processInput T k t w).bullets = w.bullets ++
        [{ position := w.ship.position,
           velocity := ((forward T w.ship.rotation).scale 5).add w.ship.velocity }] ∧
      (processInput T k t w).lastShot = toFloat t) ∧
    (toFloat t - w.lastShot < cooldownThreshold →
      (processInput T k t w).bullets = w.bullets ∧
      (processInput T k t w).lastShot = w.lastShot) ∧
    (processInput T k t w).ship = w.ship := by
  refine ⟨?_, ?_, ?_⟩
  · intro h
    have h' : toFloat (toFloat t - w.lastShot) > toFloat (1 / 5) :=
      (toFloat_gt_cooldown_iff _).mpr h
    simp only [processInput, hk, if_true, fire, h', and_self]
  · intro h
    have h' : ¬ toFloat (toFloat t - w.lastShot) > toFloat (1 / 5) := by
      rw [toFloat_gt_cooldown_iff]; exact not_le.mpr h
    simp only [processInput, hk, if_true, fire, h', if_false, and_self]
  · simp only [processInput, hk, if_true, fire]
    split <;> rfl

/-- The timer values 1.0 and 1.2 are 0.2 apart as rationals, but their float
values are 0.20000005 apart, which is above `0.2f`: from the state at program
start both calls fire. -/
theorem processInput_fires_at_one_and_six_fifths :
    toFloat (6 / 5) - toFloat 1 = 838861 / 4194304 ∧
    (processInput trigAtZero fireKeys (6 / 5)
      (processInput trigAtZero fireKeys 1 (initialWorld []))).bullets.length = 2 := by
  have f1 : toFloat 1 = 1 := by
    rw [toFloat_eq (e := 0) (by norm_num) (by norm_num) (by norm_num)]
    norm_num [roundEven]
  have f2 : toFloat (6 / 5) = 5033165 / 4194304 := by
    rw [toFloat_eq (e := 0) (by norm_num) (by norm_num) (by norm_num)]
    norm_num [roundEven]
  obtain ⟨hb1, hL1⟩ := (processInput_fire trigAtZero fireKeys 1 (initialWorld []) rfl).1
    (by rw [f1]; norm_num [initialWorld, cooldownThreshold])
  obtain ⟨hb2, -⟩ := (processInput_fire trigAtZero fireKeys (6 / 5)
    (processInput trigAtZero fireKeys 1 (initialWorld [])) rfl).1
    (by rw [f2, hL1, f1]; norm_num [cooldownThreshold])
  refine ⟨by rw [f1, f2]; norm_num, ?_⟩
  rw [hb2, hb1]
  simp [initialWorld]

/-! ## The properties of the specification -/

/-- C1, evaluated at a failing input.  In the world at program start with
`bulletA` and `bulletB` in flight, `bulletA` strikes the first asteroid and
line 203 then steps over `bulletB`: after the step `bulletB` and the second
asteroid are both still in their lists although their circles overlap. -/
theorem overlapping_pair_survives_step :
    (simStep trigAtZero (1 / 60) (initialWorld [bulletA, bulletB])).bullets = [bulletB] ∧
    (simStep trigAtZero (1 / 60) (initialWorld [bulletA, bulletB])).asteroids =
      [{ position := ⟨3498 / 5, 2497 / 5⟩, velocity := ⟨-2 / 5, -3 / 5⟩,
         rotation := 0, radius := 40 }] ∧
    collide (bulletObject bulletB.position)
      { position := ⟨3498 / 5, 2497 / 5⟩, velocity := ⟨-2 / 5, -3 / 5⟩,
        rotation := 0, radius := 40 } = true := by
  refine ⟨?_, ?_, ?_⟩
  · norm_num [simStep, bulletLoop, asteroidLoop, scanAsteroids, collide, lengthLt,
      Vec2.lengthSq, Vec2.sub, Vec2.add, Vec2.scale, bulletObject, wrapBullet, moveBullet,
      bulletA, bulletB, initialWorld, moveAsteroid, wrap, wrapCoord, WIDTH, HEIGHT,
      updateShip, forward, trigAtZero, resetShip]
  · norm_num [simStep, bulletLoop, asteroidLoop, scanAsteroids, collide, lengthLt,
      Vec2.lengthSq, Vec2.sub, Vec2.add, Vec2.scale, bulletObject, wrapBullet, moveBullet,
      bulletA, bulletB, initialWorld, moveAsteroid, wrap, wrapCoord, WIDTH, HEIGHT,
      updateShip, forward, trigAtZero, resetShip]
  · norm_num [collide, lengthLt, Vec2.lengthSq, Vec2.sub, bulletObject, bulletB]

/-- C2. From a world whose ship, asteroids and bullets are all inside
`[0, 800] × [0, 600]`, and provided every displacement that the step adds to a
position (the new velocity of the ship, the velocity of each asteroid, the
velocity of each bullet the bullet loop visits) is at most 800 in `x` and 600 in
`y` in absolute value, the ship, the remaining asteroids and the remaining
bullets are inside `[0, 800] × [0, 600]` after `simStep`. -/
theorem simStep_positions_inBounds (T : Trig) (dt : ℚ) (w : World)
    (hship : InBounds w.ship.position)
    (hasts : ∀ a ∈ w.asteroids, InBounds a.position)
    (hbullets : ∀ b ∈ w.bullets, InBounds b.position)
    (dship : SmallStep (updateShip T w.thrust w.turn dt w.ship).velocity)
    (dasts : ∀ a ∈ w.asteroids, SmallStep a.velocity)
    (dbullets : ∀ b ∈ movedBullets dt w.bullets
      (asteroidLoop (updateShip T w.thrust w.turn dt w.ship) w.asteroids).2,
      SmallStep b.velocity) :
    InBounds (simStep T dt w).ship.position ∧
    (∀ a ∈ (simStep T dt w).asteroids, InBounds a.position) ∧
    (∀ b ∈ (simStep T dt w).bullets, InBounds b.position) := by
  have hship1 : InBounds (updateShip T w.thrust w.turn dt w.ship).position :=
    wrap_add_inBounds hship dship
  refine ⟨?_, ?_, ?_⟩
  · show InBounds (asteroidLoop (updateShip T w.thrust w.turn dt w.ship) w.asteroids).1.position
    rcases asteroidLoop_fst_cases (updateShip T w.thrust w.turn dt w.ship) w.asteroids with h | h
    · rw [h]; exact hship1
    · rw [h]; exact centre_inBounds
  · intro a ha
    have hsub : (simStep T dt w).asteroids.Sublist
        (asteroidLoop (updateShip T w.thrust w.turn dt w.ship) w.asteroids).2 :=
      bulletLoop_asteroids_sublist dt [] w.bullets _
    have hmem := hsub.subset ha
    rw [asteroidLoop_snd, List.mem_map] at hmem
    obtain ⟨a0, ha0, rfl⟩ := hmem
    exact wrap_add_inBounds (hasts a0 ha0) (dasts a0 ha0)
  · exact bulletLoop_inBounds dt [] w.bullets _ (by simp) hbullets dbullets

theorem simStep_positions_inBounds_witness :
    InBounds (simStep trigAtZero (1 / 60) (initialWorld [bulletA, bulletB])).ship.position ∧
    (∀ a ∈ (simStep trigAtZero (1 / 60) (initialWorld [bulletA, bulletB])).asteroids,
      InBounds a.position) ∧
    (∀ b ∈ (simStep trigAtZero (1 / 60) (initialWorld [bulletA, bulletB])).bullets,
      InBounds b.position) :=
  simStep_positions_inBounds trigAtZero (1 / 60) (initialWorld [bulletA, bulletB])
    (by norm_num [initialWorld, InBounds, WIDTH, HEIGHT])
    (by norm_num [initialWorld, InBounds, WIDTH, HEIGHT])
    (by norm_num [initialWorld, InBounds, WIDTH, HEIGHT, bulletA, bulletB])
    (by norm_num [initialWorld, SmallStep, updateShip, forward, trigAtZero, Vec2.add, Vec2.scale,
      WIDTH, HEIGHT])
    (by norm_num [initialWorld, SmallStep, WIDTH, HEIGHT, abs_le]; )
    (by
      intro b hb
      have hb2 : b ∈ [bulletA, bulletB] := (movedBullets_sublist _ _ _).subset hb
      simp only [List.mem_cons, List.mem_singleton, List.not_mem_nil, or_false] at hb2
      rcases hb2 with rfl | rfl <;>
        norm_num [SmallStep, bulletA, bulletB, WIDTH, HEIGHT, abs_le])

/-- C4, refuted as stated.  After a shot at time 1, two successive calls with
the fire key pressed at times 1.05 and 1.1, which are 0.05 apart, append no
bullet at all. -/
theorem two_fire_calls_within_cooldown_of_earlier_shot :
    ((21 / 20 : ℚ) < 11 / 10 ∧ (11 / 10 : ℚ) - 21 / 20 ≤ 1 / 5) ∧
    (processInput trigAtZero fireKeys 1 (initialWorld [])).lastShot = 1 ∧
    (processInput trigAtZero fireKeys (11 / 10)
      (processInput trigAtZero fireKeys (21 / 20)
        (processInput trigAtZero fireKeys 1 (initialWorld [])))).bullets =
      (processInput trigAtZero fireKeys 1 (initialWorld [])).bullets := by
  have f1 : toFloat 1 = 1 := by
    rw [toFloat_eq (e := 0) (by norm_num) (by norm_num) (by norm_num)]
    norm_num [roundEven]
  have f2 : toFloat (21 / 20) = 4404019 / 4194304 := by
    rw [toFloat_eq (e := 0) (by norm_num) (by norm_num) (by norm_num)]
    norm_num [roundEven]
  have f3 : toFloat (11 / 10) = 9227469 / 8388608 := by
    rw [toFloat_eq (e := 0) (by norm_num) (by norm_num) (by norm_num)]
    norm_num [roundEven]
  have hL1 : (processInput trigAtZero fireKeys 1 (initialWorld [])).lastShot = 1 := by
    rw [((processInput_fire trigAtZero fireKeys 1 (initialWorld []) rfl).1
      (by rw [f1]; norm_num [initialWorld, cooldownThreshold])).2, f1]
  obtain ⟨hb2, hL2⟩ := (processInput_fire trigAtZero fireKeys (21 / 20)
      (processInput trigAtZero fireKeys 1 (initialWorld [])) rfl).2.1
      (by rw [f2, hL1]; norm_num [cooldownThreshold])
  obtain ⟨hb3, -⟩ := (processInput_fire trigAtZero fireKeys (11 / 10)
      (processInput trigAtZero fireKeys (21 / 20)
        (processInput trigAtZero fireKeys 1 (initialWorld []))) rfl).2.1
      (by rw [f3, hL2, hL1]; norm_num [cooldownThreshold])
  exact ⟨by norm_num, hL1, by rw [hb3, hb2]⟩

/-- C4, amended.  Timer values are converted to `float` (line 78) and the test
of line 79 passes exactly when the difference of the float timer value and
`lastShot` is at least `cooldownThreshold` (about 0.2000000104).  For two
successive calls of `processInput` with the fire key pressed at timer values
`t1 < t2` in the `float` range whose float values are at most 0.2 apart: when
the float value of `t2` is at least `cooldownThreshold` past the shot before
them, exactly one bullet is appended across the two calls, and a further
fire-pressed call whose float timer value is at least `cooldownThreshold` past
that shot appends a second one; otherwise the two calls append no bullet. -/
theorem fire_twice_within_cooldown (T : Trig) (k1 k2 : Keys) (t1 t2 : ℚ) (w : World)
    (hk1 : k1.keySpace = true) (hk2 : k2.keySpace = true)
    (_hr1 : |t1| ≤ FLT_MAX) (_hr2 : |t2| ≤ FLT_MAX)
    (h12 : t1 < t2) (hcd : toFloat t2 - toFloat t1 ≤ 1 / 5) :
    (cooldownThreshold ≤ toFloat t2 - w.lastShot →
      (∃ b : Bullet,
        (processInput T k2 t2 (processInput T k1 t1 w)).bullets = w.bullets ++ [b] ∧
        b.position = w.ship.position ∧ b.life = 2) ∧
      ((processInput T k2 t2 (processInput T k1 t1 w)).lastShot = toFloat t1 ∨
        (processInput T k2 t2 (processInput T k1 t1 w)).lastShot = toFloat t2) ∧
      ∀ (k3 : Keys) (t3 : ℚ), k3.keySpace = true → |t3| ≤ FLT_MAX →
        cooldownThreshold ≤
          toFloat t3 - (processInput T k2 t2 (processInput T k1 t1 w)).lastShot →
        ∃ b : Bullet,
          (processInput T k3 t3 (processInput T k2 t2 (processInput T k1 t1 w))).bullets =
            (processInput T k2 t2 (processInput T k1 t1 w)).bullets ++ [b] ∧
          b.position = w.ship.position ∧ b.life = 2) ∧
    (toFloat t2 - w.lastShot < cooldownThreshold →
      (processInput T k2 t2 (processInput T k1 t1 w)).bullets = w.bullets) := by
  obtain ⟨f1, n1, s1⟩ := processInput_fire T k1 t1 w hk1
  obtain ⟨f2, n2, s2⟩ := processInput_fire T k2 t2 (processInput T k1 t1 w) hk2
  have hmono : toFloat t1 ≤ toFloat t2 := toFloat_mono (le_of_lt h12)
  have hθ : (1 / 5 : ℚ) < cooldownThreshold := by norm_num [cooldownThreshold]
  constructor
  · intro hprev
    have hfinal : (processInput T k2 t2 (processInput T k1 t1 w)).bullets = w.bullets ++
        [{ position := w.ship.position,
           velocity := ((forward T w.ship.rotation).scale 5).add w.ship.velocity }] ∧
      ((processInput T k2 t2 (processInput T k1 t1 w)).lastShot = toFloat t1 ∨
        (processInput T k2 t2 (processInput T k1 t1 w)).lastShot = toFloat t2) := by
      by_cases hfirst : cooldownThreshold ≤ toFloat t1 - w.lastShot
      · obtain ⟨hb1, hl1⟩ := f1 hfirst
        have hno : toFloat t2 - (processInput T k1 t1 w).lastShot < cooldownThreshold := by
          rw [hl1]; linarith
        obtain ⟨hb2, hl2⟩ := n2 hno
        exact ⟨by rw [hb2, hb1], Or.inl (by rw [hl2, hl1])⟩
      · obtain ⟨hb1, hl1⟩ := n1 (not_le.mp hfirst)
        have hyes : cooldownThreshold ≤ toFloat t2 - (processInput T k1 t1 w).lastShot := by
          rw [hl1]; exact hprev
        obtain ⟨hb2, hl2⟩ := f2 hyes
        exact ⟨by rw [hb2, hb1, s1], Or.inr hl2⟩
    refine ⟨⟨_, hfinal.1, rfl, rfl⟩, hfinal.2, ?_⟩
    intro k3 t3 hk3 _ h3
    obtain ⟨f3, -, -⟩ := processInput_fire T k3 t3 _ hk3
    refine ⟨_, (f3 h3).1, ?_, rfl⟩
    rw [s2, s1]
  · intro hprev
    have hfirst : toFloat t1 - w.lastShot < cooldownThreshold := by linarith
    obtain ⟨hb1, hl1⟩ := n1 hfirst
    have hno : toFloat t2 - (processInput T k1 t1 w).lastShot < cooldownThreshold := by
      rw [hl1]; exact hprev
    rw [(n2 hno).1, hb1]

/-- From the state at program start, fire-pressed calls at times 1 and 1.125
append one bullet. -/
theorem fire_twice_within_cooldown_witness :
    (∃ b : Bullet,
      (processInput trigAtZero fireKeys (9 / 8)
        (processInput trigAtZero fireKeys 1 (initialWorld []))).bullets =
        (initialWorld []).bullets ++ [b] ∧
      b.position = (initialWorld []).ship.position ∧ b.life = 2) :=
  ((fire_twice_within_cooldown trigAtZero fireKeys fireKeys 1 (9 / 8) (initialWorld [])
    rfl rfl (by norm_num [FLT_MAX, abs_le]) (by norm_num [FLT_MAX, abs_le]) (by norm_num)
    (by
      rw [toFloat_eq (e := 0) (x := 9 / 8) (by norm_num) (by norm_num) (by norm_num),
        toFloat_eq (e := 0) (x := 1) (by norm_num) (by norm_num) (by norm_num)]
      norm_num [roundEven])).1
    (by
      rw [toFloat_eq (e := 0) (x := 9 / 8) (by norm_num) (by norm_num) (by norm_num)]
      norm_num [roundEven, initialWorld, cooldownThreshold])).1

/-- C5. When the ship, after its own update, collides with at least one
asteroid of the list (each asteroid taken after its movement and wrap), the
asteroid update loop ends with the ship at exactly (400, 300) with velocity
(0, 0); the loop removes no asteroid and leaves the velocity and the radius of
every asteroid unchanged. -/
theorem asteroidLoop_resets_ship (T : Trig) (thrust turn dt : ℚ) (ship : Object)
    (asts : List Object)
    (h : ∃ a ∈ asts, collide (updateShip T thrust turn dt ship) (moveAsteroid a) = true) :
    (asteroidLoop (updateShip T thrust turn dt ship) asts).1.position = ⟨400, 300⟩ ∧
    (asteroidLoop (updateShip T thrust turn dt ship) asts).1.velocity = ⟨0, 0⟩ ∧
    (asteroidLoop (updateShip T thrust turn dt ship) asts).2.length = asts.length ∧
    (asteroidLoop (updateShip T thrust turn dt ship) asts).2.map Object.velocity =
      asts.map Object.velocity ∧
    (asteroidLoop (updateShip T thrust turn dt ship) asts).2.map Object.radius =
      asts.map Object.radius := by
  rw [asteroidLoop_fst_of_collide _ asts h, asteroidLoop_snd]
  refine ⟨?_, rfl, by simp, ?_, ?_⟩
  · simp only [resetShip, WIDTH, HEIGHT]
    norm_num
  · simp [List.map_map, Function.comp_def, moveAsteroid]
  · simp [List.map_map, Function.comp_def, moveAsteroid]

theorem asteroidLoop_resets_ship_witness :
    (asteroidLoop (updateShip trigAtZero 5 0 (1 / 60) shipAtCentre) [asteroidMid]).1.position =
      ⟨400, 300⟩ ∧
    (asteroidLoop (updateShip trigAtZero 5 0 (1 / 60) shipAtCentre) [asteroidMid]).1.velocity =
      ⟨0, 0⟩ ∧
    (asteroidLoop (updateShip trigAtZero 5 0 (1 / 60) shipAtCentre) [asteroidMid]).2.length =
      [asteroidMid].length ∧
    (asteroidLoop (updateShip trigAtZero 5 0 (1 / 60) shipAtCentre) [asteroidMid]).2.map
      Object.velocity = [asteroidMid].map Object.velocity ∧
    (asteroidLoop (updateShip trigAtZero 5 0 (1 / 60) shipAtCentre) [asteroidMid]).2.map
      Object.radius = [asteroidMid].map Object.radius :=
  asteroidLoop_resets_ship trigAtZero 5 0 (1 / 60) shipAtCentre [asteroidMid]
    ⟨asteroidMid, List.mem_singleton.mpr rfl, by
      norm_num [collide, lengthLt, Vec2.lengthSq, Vec2.sub, Vec2.add, Vec2.scale, updateShip,
        forward, trigAtZero, shipAtCentre, moveAsteroid, asteroidMid, wrap, wrapCoord,
        WIDTH, HEIGHT]⟩

/-- C6, refuted as stated.  In `twoAsteroidWorld` the bullet is tested at
(100, 100), the centre of `asteroidNear`; `asteroidFar` comes first in the list
and collides too, so it is the one erased, and `asteroidNear` is still in the
asteroid list after the step.  Second, an asteroid of radius -2 whose centre
coincides with a bullet does not collide with it. -/
theorem coinciding_asteroid_survives_step :
    ((wrapBullet (moveBullet (1 / 60) bulletA)).position = (moveAsteroid asteroidNear).position ∧
      (simStep trigAtZero (1 / 60) twoAsteroidWorld).asteroids = [asteroidNear] ∧
      (simStep trigAtZero (1 / 60) twoAsteroidWorld).bullets = []) ∧
    collide (bulletObject ⟨100, 100⟩)
      { position := ⟨100, 100⟩, velocity := ⟨0, 0⟩, rotation := 0, radius := -2 } = false := by
  refine ⟨⟨?_, ?_, ?_⟩, ?_⟩
  · norm_num [wrapBullet, moveBullet, bulletA, moveAsteroid, asteroidNear, Vec2.add, wrap,
      wrapCoord, WIDTH, HEIGHT]
  · norm_num [simStep, bulletLoop, asteroidLoop, scanAsteroids, collide, lengthLt,
      Vec2.lengthSq, Vec2.sub, Vec2.add, Vec2.scale, bulletObject, wrapBullet, moveBullet,
      bulletA, twoAsteroidWorld, asteroidFar, asteroidNear, shipAtCentre, moveAsteroid, wrap,
      wrapCoord, WIDTH, HEIGHT, updateShip, forward, trigAtZero, resetShip]
  · norm_num [simStep, bulletLoop, asteroidLoop, scanAsteroids, collide, lengthLt,
      Vec2.lengthSq, Vec2.sub, Vec2.add, Vec2.scale, bulletObject, wrapBullet, moveBullet,
      bulletA, twoAsteroidWorld, asteroidFar, asteroidNear, shipAtCentre, moveAsteroid, wrap,
      wrapCoord, WIDTH, HEIGHT, updateShip, forward, trigAtZero, resetShip]
  · norm_num [collide, lengthLt, Vec2.lengthSq, Vec2.sub, bulletObject]

/-- C6, amended.  When the bullet loop tests an unexpired bullet `b` and an
asteroid `a` of radius greater than -2 has its centre at the position of `b`,
and no asteroid before `a` in the list collides with `b`, the collision pass
erases exactly `a` (the other asteroids keep their order) and `b`: at the end of
the step the asteroid list is a sublist of the list without `a`, and the bullet
list is the bullets handled before `b` followed by bullets that come from those
after `b`, each as it was or moved and wrapped. -/
theorem coinciding_first_collider_removed (dt : ℚ) (front : List Bullet) (b : Bullet)
    (rest : List Bullet) (pre : List Object) (a : Object) (post : List Object)
    (hlive : ¬ (moveBullet dt b).life ≤ 0)
    (hpos : a.position = (wrapBullet (moveBullet dt b)).position)
    (hrad : -2 < a.radius)
    (hpre : ∀ x ∈ pre,
      collide (bulletObject (wrapBullet (moveBullet dt b)).position) x = false) :
    scanAsteroids (wrapBullet (moveBullet dt b)).position (pre ++ a :: post) =
      some (pre ++ post) ∧
    (bulletLoop dt front (b :: rest) (pre ++ a :: post)).2.Sublist (pre ++ post) ∧
    ∃ tail, (bulletLoop dt front (b :: rest) (pre ++ a :: post)).1 = front ++ tail ∧
      tail.length ≤ rest.length ∧
      ∀ x ∈ tail, x ∈ rest ∨ ∃ r ∈ rest, x = wrapBullet (moveBullet dt r) := by
  have ha : collide (bulletObject (wrapBullet (moveBullet dt b)).position) a = true :=
    collide_same_centre _ a hpos.symm (by simp only [bulletObject]; linarith)
  have hscan := scanAsteroids_first _ pre a post hpre ha
  refine ⟨hscan, ?_, ?_⟩
  · cases rest with
    | nil =>
      rw [bulletLoop_strike_last dt front b _ _ hlive hscan]
    | cons next rest1 =>
      rw [bulletLoop_strike_next dt front b next rest1 _ _ hlive hscan]
      exact bulletLoop_asteroids_sublist dt _ rest1 _
  · cases rest with
    | nil =>
      rw [bulletLoop_strike_last dt front b _ _ hlive hscan]
      exact ⟨[], by simp, by simp, by simp⟩
    | cons next rest1 =>
      rw [bulletLoop_strike_next dt front b next rest1 _ _ hlive hscan]
      obtain ⟨tail, h1, h2, h3⟩ := bulletLoop_tail dt (front ++ [next]) rest1 (pre ++ post)
      refine ⟨next :: tail, by simp [h1], by simp; omega, ?_⟩
      intro x hx
      rcases List.mem_cons.mp hx with rfl | hx
      · exact Or.inl (by simp)
      · rcases h3 x hx with h | ⟨r, hr, rfl⟩
        · exact Or.inl (by simp [h])
        · exact Or.inr ⟨r, by simp [hr], rfl⟩

/-- With `asteroidNear` first in the list, `bulletA`, tested at its centre,
erases it and `asteroidFar` stays. -/
theorem coinciding_first_collider_removed_witness :
    scanAsteroids (wrapBullet (moveBullet (1 / 60) bulletA)).position
      ([] ++ asteroidNear :: [asteroidFar]) = some ([] ++ [asteroidFar]) ∧
    (bulletLoop (1 / 60) [] (bulletA :: []) ([] ++ asteroidNear :: [asteroidFar])).2.Sublist
      ([] ++ [asteroidFar]) ∧
    ∃ tail, (bulletLoop (1 / 60) [] (bulletA :: []) ([] ++ asteroidNear :: [asteroidFar])).1 =
        [] ++ tail ∧
      tail.length ≤ ([] : List Bullet).length ∧
      ∀ x ∈ tail, x ∈ ([] : List Bullet) ∨
        ∃ r ∈ ([] : List Bullet), x = wrapBullet (moveBullet (1 / 60) r) :=
  coinciding_first_collider_removed (1 / 60) [] bulletA [] [] asteroidNear [asteroidFar]
    (by norm_num [moveBullet, bulletA])
    (by norm_num [wrapBullet, moveBullet, bulletA, asteroidNear, Vec2.add, wrap,
      wrapCoord, WIDTH, HEIGHT])
    (by norm_num [asteroidNear])
    (by simp)

/-- C7, evaluated at a failing input.  In the world at program start with
`bulletA` and `bulletC` in flight and `dt = 1/60`, the life of `bulletC` minus
`dt` is negative, yet `bulletC` is in the bullet list after the step, with its
life unchanged: `bulletA` strikes the first asteroid and line 203 steps over
`bulletC`. -/
theorem expired_bullet_survives_step :
    bulletC.life - 1 / 60 ≤ 0 ∧
    (simStep trigAtZero (1 / 60) (initialWorld [bulletA, bulletC])).bullets = [bulletC] := by
  refine ⟨by norm_num [bulletC], ?_⟩
  norm_num [simStep, bulletLoop, asteroidLoop, scanAsteroids, collide, lengthLt,
    Vec2.lengthSq, Vec2.sub, Vec2.add, Vec2.scale, bulletObject, wrapBullet, moveBullet,
    bulletA, bulletC, initialWorld, moveAsteroid, wrap, wrapCoord, WIDTH, HEIGHT,
    updateShip, forward, trigAtZero, resetShip]

/-- C8, refuted as stated.  With the ship at (400, 300), zero velocity,
rotation 0, turn 0, thrust 5 and an elapsed time of 100 s (sine 0 and cosine 1
at angle 0), the velocity after the update is (0, 495) and the wrap brings the
position to (400, 195), not (400, 300 + 0.99 * 5 * 100). -/
theorem thrust_scenario_wraps_on_long_frame :
    (trigAtZero.sinDeg 0 = 0 ∧ trigAtZero.cosDeg 0 = 1) ∧
    (updateShip trigAtZero 5 0 100 shipAtCentre).velocity = ⟨0, 99 / 100 * 5 * 100⟩ ∧
    (updateShip trigAtZero 5 0 100 shipAtCentre).position = ⟨400, 195⟩ ∧
    (updateShip trigAtZero 5 0 100 shipAtCentre).position ≠ ⟨400, 300 + 99 / 100 * 5 * 100⟩ := by
  refine ⟨⟨rfl, rfl⟩, ?_, ?_, ?_⟩
  · norm_num [updateShip, forward, trigAtZero, shipAtCentre, Vec2.add, Vec2.scale]
  · norm_num [updateShip, forward, trigAtZero, shipAtCentre, Vec2.add, Vec2.scale, wrap,
      wrapCoord, WIDTH, HEIGHT]
  · norm_num [updateShip, forward, trigAtZero, shipAtCentre, Vec2.add, Vec2.scale, wrap,
      wrapCoord, WIDTH, HEIGHT]

/-- C8, amended.  The ship update sets `rotation' = rotation + turn * dt`,
`velocity' = 0.99 * (velocity + thrust * dt * (-sin rotation', cos rotation'))`
with the forward vector of the updated rotation, and
`position' = wrap (position + velocity')` with the damped velocity.  For a ship
at (400, 300) with zero velocity and rotation 0, turn 0 and thrust 5 (sine 0
and cosine 1 at angle 0), the velocity after the update is (0, 0.99 * 5 * dt)
and the position is `wrap (400, 300 + 0.99 * 5 * dt)`, which is
(400, 300 + 0.99 * 5 * dt) whenever `0 ≤ 300 + 0.99 * 5 * dt ≤ 600`. -/
theorem updateShip_spec (T : Trig) (thrust turn dt : ℚ) (ship : Object) :
    (updateShip T thrust turn dt ship).rotation = ship.rotation + turn * dt ∧
    (updateShip T thrust turn dt ship).velocity =
      ⟨99 / 100 * (ship.velocity.x +
          thrust * dt * (-T.sinDeg (updateShip T thrust turn dt ship).rotation)),
        99 / 100 * (ship.velocity.y +
          thrust * dt * T.cosDeg (updateShip T thrust turn dt ship).rotation)⟩ ∧
    (updateShip T thrust turn dt ship).position =
      wrap (ship.position.add (updateShip T thrust turn dt ship).velocity) ∧
    (T.sinDeg 0 = 0 → T.cosDeg 0 = 1 → ∀ radius : ℚ,
      (updateShip T 5 0 dt
        { position := ⟨400, 300⟩, velocity := ⟨0, 0⟩, rotation := 0, radius := radius }).velocity =
        ⟨0, 99 / 100 * 5 * dt⟩ ∧
      (updateShip T 5 0 dt
        { position := ⟨400, 300⟩, velocity := ⟨0, 0⟩, rotation := 0, radius := radius }).position =
        wrap ⟨400, 300 + 99 / 100 * 5 * dt⟩ ∧
      (0 ≤ 300 + 99 / 100 * 5 * dt → 300 + 99 / 100 * 5 * dt ≤ 600 →
        (updateShip T 5 0 dt
          { position := ⟨400, 300⟩, velocity := ⟨0, 0⟩, rotation := 0,
            radius := radius }).position = ⟨400, 300 + 99 / 100 * 5 * dt⟩)) := by
  refine ⟨rfl, ?_, rfl, ?_⟩
  · simp only [updateShip, forward, Vec2.add, Vec2.scale, Vec2.mk.injEq]
    constructor <;> ring
  · intro hsin hcos radius
    have hvel : (updateShip T 5 0 dt
        { position := ⟨400, 300⟩, velocity := ⟨0, 0⟩, rotation := 0, radius := radius }).velocity =
        ⟨0, 99 / 100 * 5 * dt⟩ := by
      simp only [updateShip, forward, Vec2.add, Vec2.scale, Vec2.mk.injEq, zero_mul, add_zero,
        hsin, hcos]
      constructor <;> ring
    have hpos : (updateShip T 5 0 dt
        { position := ⟨400, 300⟩, velocity := ⟨0, 0⟩, rotation := 0, radius := radius }).position =
        wrap ⟨400, 300 + 99 / 100 * 5 * dt⟩ := by
      show wrap (Vec2.add ⟨400, 300⟩ (updateShip T 5 0 dt
        { position := ⟨400, 300⟩, velocity := ⟨0, 0⟩, rotation := 0,
          radius := radius }).velocity) = _
      rw [hvel]
      simp only [Vec2.add, add_zero]
    refine ⟨hvel, hpos, ?_⟩
    intro hlo hhi
    rw [hpos]
    simp only [wrap, Vec2.mk.injEq]
    exact ⟨wrapCoord_of_mem (by norm_num) (by norm_num [WIDTH]),
      wrapCoord_of_mem hlo (by simpa [HEIGHT] using hhi)⟩

/-- The scenario at `dt = 1/60`: the velocity is (0, 0.0825) and the position
(400, 300.0825). -/
theorem updateShip_spec_witness :
    (updateShip trigAtZero 5 0 (1 / 60)
      { position := ⟨400, 300⟩, velocity := ⟨0, 0⟩, rotation := 0, radius := 20 }).velocity =
      ⟨0, 99 / 100 * 5 * (1 / 60)⟩ ∧
    (updateShip trigAtZero 5 0 (1 / 60)
      { position := ⟨400, 300⟩, velocity := ⟨0, 0⟩, rotation := 0, radius := 20 }).position =
      ⟨400, 300 + 99 / 100 * 5 * (1 / 60)⟩ :=
  ⟨((updateShip_spec trigAtZero 5 0 (1 / 60) shipAtCentre).2.2.2 rfl rfl 20).1,
   ((updateShip_spec trigAtZero 5 0 (1 / 60) shipAtCentre).2.2.2 rfl rfl 20).2.2
     (by norm_num) (by norm_num)⟩

/-- C9. For a single unexpired bullet and any asteroid list, the collision
pass of the bullet (at its moved, wrapped position) erases exactly the first
asteroid in list order that collides with it, whatever the distances, together
with the bullet, and keeps the other asteroids in their order; when no asteroid
collides nothing is removed and the bullet stays, moved and wrapped.  In every
case at most one asteroid is removed. -/
theorem single_bullet_strikes_first_collider (dt : ℚ) (b : Bullet) (asts : List Object)
    (hlive : ¬ (moveBullet dt b).life ≤ 0) :
    (∀ pre a post, asts = pre ++ a :: post →
      (∀ x ∈ pre, collide (bulletObject (wrapBullet (moveBullet dt b)).position) x = false) →
      collide (bulletObject (wrapBullet (moveBullet dt b)).position) a = true →
      scanAsteroids (wrapBullet (moveBullet dt b)).position asts = some (pre ++ post) ∧
      bulletLoop dt [] [b] asts = ([], pre ++ post)) ∧
    ((∀ x ∈ asts, collide (bulletObject (wrapBullet (moveBullet dt b)).position) x = false) →
      scanAsteroids (wrapBullet (moveBullet dt b)).position asts = none ∧
      bulletLoop dt [] [b] asts = ([wrapBullet (moveBullet dt b)], asts)) ∧
    asts.length ≤ (bulletLoop dt [] [b] asts).2.length + 1 := by
  refine ⟨?_, ?_, ?_⟩
  · rintro pre a post rfl hpre ha
    have hscan := scanAsteroids_first _ pre a post hpre ha
    exact ⟨hscan, bulletLoop_strike_last dt [] b _ _ hlive hscan⟩
  · intro hnone
    have hscan := scanAsteroids_none _ asts hnone
    refine ⟨hscan, ?_⟩
    rw [bulletLoop_miss dt [] b [] asts hlive hscan]
    simp [bulletLoop]
  · cases hscan : scanAsteroids (wrapBullet (moveBullet dt b)).position asts with
    | none =>
      rw [bulletLoop_miss dt [] b [] asts hlive hscan]
      simp [bulletLoop]
    | some asts1 =>
      rw [bulletLoop_strike_last dt [] b asts asts1 hlive hscan]
      exact le_of_eq (scanAsteroids_sublist _ asts asts1 hscan).2.symm

/-- The bullet `bulletA` reaches (100, 100): `asteroidFar`, 20 away, comes first
in the list and is the one erased, although `asteroidNear` is at distance 0. -/
theorem single_bullet_strikes_first_collider_witness :
    scanAsteroids (wrapBullet (moveBullet (1 / 60) bulletA)).position
      [asteroidFar, asteroidNear] = some [asteroidNear] ∧
    bulletLoop (1 / 60) [] [bulletA] [asteroidFar, asteroidNear] = ([], [asteroidNear]) :=
  (single_bullet_strikes_first_collider (1 / 60) bulletA [asteroidFar, asteroidNear]
    (by norm_num [moveBullet, bulletA])).1 [] asteroidFar [asteroidNear] rfl
    (by simp)
    (by norm_num [collide, lengthLt, Vec2.lengthSq, Vec2.sub, Vec2.add, bulletObject,
      wrapBullet, moveBullet, bulletA, asteroidFar, wrap, wrapCoord, WIDTH, HEIGHT])

/-- C10. Whenever the bullet loop stands at an unexpired bullet `b` that strikes
an asteroid and another bullet `next` follows `b` in the vector, the loop
resumes behind `next`: `next` is appended as it is (position, velocity and life
untouched, no expiry check, no collision test) to the bullets already handled,
and it is in the bullet vector at the end of the step, right after them. -/
theorem strike_skips_following_bullet (dt : ℚ) (front : List Bullet) (b next : Bullet)
    (rest : List Bullet) (asts asts1 : List Object)
    (hlive : ¬ (moveBullet dt b).life ≤ 0)
    (hstrike : scanAsteroids (wrapBullet (moveBullet dt b)).position asts = some asts1) :
    bulletLoop dt front (b :: next :: rest) asts =
      bulletLoop dt (front ++ [next]) rest asts1 ∧
    (front ++ [next]) <+: (bulletLoop dt front (b :: next :: rest) asts).1 ∧
    next ∈ (bulletLoop dt front (b :: next :: rest) asts).1 := by
  have heq := bulletLoop_strike_next dt front b next rest asts asts1 hlive hstrike
  have hpre : (front ++ [next]) <+: (bulletLoop dt front (b :: next :: rest) asts).1 := by
    rw [heq]
    exact bulletLoop_keeps_front dt (front ++ [next]) rest asts1
  exact ⟨heq, hpre, hpre.subset (by simp)⟩

/-- In the world at program start with `bulletA` and `bulletB` in flight,
`bulletA` strikes the first asteroid and `bulletB` is stepped over. -/
theorem strike_skips_following_bullet_witness :
    bulletLoop (1 / 60) [] [bulletA, bulletB]
        ((initialWorld [bulletA, bulletB]).asteroids.map moveAsteroid) =
      bulletLoop (1 / 60) ([] ++ [bulletB]) []
        ((initialWorld [bulletA, bulletB]).asteroids.map moveAsteroid).tail ∧
    ([] ++ [bulletB]) <+: (bulletLoop (1 / 60) [] [bulletA, bulletB]
        ((initialWorld [bulletA, bulletB]).asteroids.map moveAsteroid)).1 ∧
    bulletB ∈ (bulletLoop (1 / 60) [] [bulletA, bulletB]
        ((initialWorld [bulletA, bulletB]).asteroids.map moveAsteroid)).1 :=
  strike_skips_following_bullet (1 / 60) [] bulletA bulletB []
    ((initialWorld [bulletA, bulletB]).asteroids.map moveAsteroid)
    ((initialWorld [bulletA, bulletB]).asteroids.map moveAsteroid).tail
    (by norm_num [moveBullet, bulletA])
    (by norm_num [scanAsteroids, collide, lengthLt, Vec2.lengthSq, Vec2.sub, Vec2.add,
      bulletObject, wrapBullet, moveBullet, bulletA, initialWorld, moveAsteroid, wrap,
      wrapCoord, WIDTH, HEIGHT])

end Asteroids
